import Mathlib

/-!
Verification of the master-board firmware core against its specification.

The definitions below are a shallow embedding of the C++ sources:

* `src/src/robust_uart.cpp` / `src/include/robust_uart.h` — the framed UART
  protocol (`RobustUart`): CRC16-CCITT, the byte-at-a-time RX state machine
  `processByte`, and the frame encoder `sendFrame`.
* `src/src/GameManager.cpp` / `src/include/GameManager.h` — the inventory
  reconciler (`updateUartPowerplants`, `applyPendingDecreases`), the control
  law (`computePowerPerPlant`, `updateGas`, `updateWind`, `updateHydro`,
  `updateHydroStorage`, `updateBattery`, ...) and the periodic command loop
  `updateAttractionStates`.

Machine integers are modelled as `Nat` with explicit truncation where the C
code truncates; `float` quantities are modelled as exact rationals `ℚ`
(the branch structure of the control law does not depend on rounding).
Timestamps are `millis()` values; the unsigned 32-bit wrap-around subtraction
the code performs on them is modelled by `u32sub`.
-/

/-! ### RobustUart: constants (robust_uart.h) -/

/-- Frame synchronization byte 1 (`RobustUart::SYNC1 = 0xAA`). -/
def SYNC1 : Nat := 0xAA

/-- Frame synchronization byte 2 (`RobustUart::SYNC2 = 0x55`). -/
def SYNC2 : Nat := 0x55

/-- Maximum payload length (`RobustUart::MAX_PAYLOAD_SIZE = 250`). -/
def MAX_PAYLOAD_SIZE : Nat := 250

/-! ### CRC16-CCITT (robust_uart.cpp, `RobustUart::crc16_ccitt`) -/

/-- One shift round of the CRC16-CCITT inner loop:
`if (crc & 0x8000) crc = (crc << 1) ^ 0x1021; else crc <<= 1;`
(the assignment back to the `uint16_t` variable truncates modulo `2^16`). -/
def crc16Round (crc : Nat) : Nat :=
  if crc / 0x8000 % 2 = 1 then ((crc * 2) ^^^ 0x1021) % 65536
  else (crc * 2) % 65536

/-- `n` iterations of `crc16Round` (the inner `for (j = 0; j < 8; j++)`). -/
def crc16Rounds : Nat → Nat → Nat
  | 0, crc => crc
  | n + 1, crc => crc16Rounds n (crc16Round crc)

/-- `RobustUart::crc16_ccitt` over a byte list: initial value `0xFFFF`,
for each byte `crc ^= byte << 8` followed by eight shift rounds. -/
def crc16_ccitt (data : List Nat) : Nat :=
  data.foldl (fun crc b => crc16Rounds 8 ((crc ^^^ (b % 256) * 256) % 65536)) 0xFFFF

/-! ### RX state machine (robust_uart.h `RxState`, robust_uart.cpp) -/

/-- The decoder states (`enum RxState` in robust_uart.h). -/
inductive RxMode where
  | WAIT_SYNC1
  | WAIT_SYNC2
  | READ_LEN
  | READ_PAYLOAD
  | READ_CRC_H
  | READ_CRC_L
  | FRAME_READY
deriving DecidableEq, Repr

/-- The mutable receiver state of `RobustUart`.  `rxPayload` is the fixed
250-byte buffer `uint8_t rxPayload[MAX_PAYLOAD_SIZE]`, modelled as a list of
length 250; counters are the diagnostics fields. -/
structure RxState where
  rxMode : RxMode
  rxLen : Nat
  rxIndex : Nat
  rxPayload : List Nat
  rxCrc : Nat
  framesReceived : Nat
  crcErrors : Nat
  syncErrors : Nat
deriving DecidableEq, Repr

/-- `RobustUart::resetRx`: back to `WAIT_SYNC1`, clearing `rxLen`, `rxIndex`
and `rxCrc` (the payload buffer and the statistics are left alone). -/
def resetRx (s : RxState) : RxState :=
  { s with rxMode := .WAIT_SYNC1, rxLen := 0, rxIndex := 0, rxCrc := 0 }

/-- The state after the `RobustUart()` constructor: `resetRx` plus a zeroed
payload buffer and zeroed statistics. -/
def initialRxState : RxState :=
  { rxMode := .WAIT_SYNC1, rxLen := 0, rxIndex := 0,
    rxPayload := List.replicate 250 0, rxCrc := 0,
    framesReceived := 0, crcErrors := 0, syncErrors := 0 }

/-- The body of `RobustUart::processByte` for every state except
`FRAME_READY` (whose behaviour in the source is a reset followed by a
re-dispatch; see `processByte`).  The argument is a `uint8_t`, i.e. a value
below 256.  Returns the `bool` result paired with the updated state. -/
def processByteRun (s : RxState) (byte : Nat) : Bool × RxState :=
  match s.rxMode with
  | .WAIT_SYNC1 =>
      if byte = SYNC1 then (false, { s with rxMode := .WAIT_SYNC2 })
      else (false, { s with syncErrors := s.syncErrors + 1 })
  | .WAIT_SYNC2 =>
      if byte = SYNC2 then (false, { s with rxMode := .READ_LEN })
      else (false, { s with syncErrors := s.syncErrors + 1,
                            rxMode := if byte = SYNC1 then .WAIT_SYNC2 else .WAIT_SYNC1 })
  | .READ_LEN =>
      if 0 < byte ∧ byte ≤ MAX_PAYLOAD_SIZE then
        (false, { s with rxLen := byte, rxIndex := 0, rxMode := .READ_PAYLOAD })
      else
        (false, resetRx { s with syncErrors := s.syncErrors + 1 })
  | .READ_PAYLOAD =>
      let s' := { s with rxPayload := s.rxPayload.set s.rxIndex byte,
                         rxIndex := s.rxIndex + 1 }
      if s'.rxIndex ≥ s'.rxLen then (false, { s' with rxMode := .READ_CRC_H })
      else (false, s')
  | .READ_CRC_H =>
      (false, { s with rxCrc := byte * 256, rxMode := .READ_CRC_L })
  | .READ_CRC_L =>
      let s' := { s with rxCrc := s.rxCrc ||| byte }
      let expectedCrc := crc16_ccitt (s'.rxLen :: s'.rxPayload.take s'.rxLen)
      if s'.rxCrc = expectedCrc then
        (true, { s' with framesReceived := s'.framesReceived + 1, rxMode := .FRAME_READY })
      else
        (false, resetRx { s' with crcErrors := s'.crcErrors + 1 })
  | .FRAME_READY => (false, s)

/-- `RobustUart::processByte`.  In `FRAME_READY` the source executes
`resetRx(); return processByte(byte);` — since `resetRx` lands in
`WAIT_SYNC1`, that single level of recursion is exactly one run of the
state-machine body on the reset state. -/
def processByte (s : RxState) (byte : Nat) : Bool × RxState :=
  match s.rxMode with
  | .FRAME_READY => processByteRun (resetRx s) byte
  | _ => processByteRun s byte

/-- Feed a list of bytes one at a time, collecting the `bool` results. -/
def processBytes (s : RxState) (bytes : List Nat) : List Bool × RxState :=
  match bytes with
  | [] => ([], s)
  | b :: rest =>
      let (r, s') := processByte s b
      let (rs, s'') := processBytes s' rest
      (r :: rs, s'')

/-- `RobustUart::sendFrame`: `none` models the `return false` on an empty or
oversized payload (the null-sink check is outside the model); otherwise the
byte sequence `[SYNC1][SYNC2][LEN][PAYLOAD...][CRC_H][CRC_L]` handed to the
write function. -/
def sendFrame (payload : List Nat) : Option (List Nat) :=
  if payload.length = 0 ∨ payload.length > MAX_PAYLOAD_SIZE then none
  else
    some ([SYNC1, SYNC2, payload.length] ++ payload ++
      [crc16_ccitt (payload.length :: payload) / 256 % 256,
       crc16_ccitt (payload.length :: payload) % 256])

/-! ### Arithmetic helper lemmas for the CRC -/

/-- `crc16Round` lands below `2^16`. -/
theorem crc16Round_lt (crc : Nat) : crc16Round crc < 65536 := by
  unfold crc16Round
  split <;> exact Nat.mod_lt _ (by norm_num)

/-- `crc16Rounds` preserves the 16-bit bound. -/
theorem crc16Rounds_lt (n crc : Nat) (h : crc < 65536) : crc16Rounds n crc < 65536 := by
  induction n generalizing crc with
  | zero => exact h
  | succ n ih => exact ih _ (crc16Round_lt crc)

/-- The CRC of any byte list is a 16-bit value. -/
theorem crc16_ccitt_lt (data : List Nat) : crc16_ccitt data < 65536 := by
  unfold crc16_ccitt
  induction data using List.reverseRecOn with
  | nil => norm_num
  | append_singleton l b _ =>
      rw [List.foldl_append, List.foldl_cons, List.foldl_nil]
      exact crc16Rounds_lt 8 _ (Nat.mod_lt _ (by norm_num))

/-- Assembling the two CRC bytes with bitwise or is plain addition:
`(x * 256) ||| y = x * 256 + y` whenever `y` fits in one byte. -/
theorem lor_mul256 (x y : Nat) (hy : y < 256) : (x * 256) ||| y = x * 256 + y := by
  apply Nat.eq_of_testBit_eq
  intro i
  rw [Nat.testBit_lor, Nat.testBit_to_div_mod, Nat.testBit_to_div_mod,
    Nat.testBit_to_div_mod]
  rcases Nat.lt_or_ge i 8 with hi | hi
  · have heven : x * 256 = 2 ^ i * (2 * (x * 2 ^ (7 - i))) := by
      have h256 : (256 : Nat) = 2 ^ i * 2 ^ (8 - i) := by
        have h8 : (256 : Nat) = 2 ^ 8 := by norm_num
        rw [h8, ← pow_add]
        congr 1
        omega
      have h87 : (2 : Nat) ^ (8 - i) = 2 * 2 ^ (7 - i) := by
        have h1 : 8 - i = (7 - i) + 1 := by omega
        rw [h1, pow_succ']
      rw [h256, h87]
      ring
    have hpos : 0 < 2 ^ i := pow_pos (by norm_num) i
    have hdiv : (x * 256 + y) / 2 ^ i = y / 2 ^ i + 2 * (x * 2 ^ (7 - i)) := by
      rw [heven, Nat.add_comm, Nat.add_mul_div_left _ _ hpos]
    have hdiv2 : (x * 256) / 2 ^ i = 2 * (x * 2 ^ (7 - i)) := by
      rw [heven, Nat.mul_div_cancel_left _ hpos]
    rw [hdiv, hdiv2, Nat.add_mul_mod_self_left]
    simp [Nat.mul_mod_right]
  · have h256 : (2 : Nat) ^ i = 256 * 2 ^ (i - 8) := by
      have h8 : (256 : Nat) = 2 ^ 8 := by norm_num
      rw [h8, ← pow_add]
      congr 1
      omega
    have hy0 : y / 2 ^ i = 0 := by
      apply Nat.div_eq_of_lt
      calc y < 256 := hy
        _ ≤ 2 ^ i := by
            rw [h256]
            exact Nat.le_mul_of_pos_right _ (pow_pos (by norm_num) _)
    have hy256 : y / 256 = 0 := Nat.div_eq_of_lt hy
    have e1 : (x * 256 + y) / 2 ^ i = x / 2 ^ (i - 8) := by
      rw [h256, ← Nat.div_div_eq_div_mul]
      congr 1
      rw [Nat.mul_comm x 256, Nat.add_comm,
        Nat.add_mul_div_left _ _ (by norm_num : (0 : Nat) < 256), hy256, Nat.zero_add]
    have e2 : (x * 256) / 2 ^ i = x / 2 ^ (i - 8) := by
      rw [h256, ← Nat.div_div_eq_div_mul, Nat.mul_comm x 256,
        Nat.mul_div_cancel_left _ (by norm_num : (0 : Nat) < 256)]
    rw [e1, e2, hy0]
    simp

/-! ### The payload buffer as successive in-place writes -/

/-- Successive writes `buf[i] = b; buf[i+1] = b'; ...`, the effect of the
`READ_PAYLOAD` state on the payload buffer. -/
def setFrom : List Nat → Nat → List Nat → List Nat
  | buf, _, [] => buf
  | buf, i, b :: bs => setFrom (buf.set i b) (i + 1) bs

/-- `setFrom` never changes the buffer length. -/
theorem setFrom_length (p : List Nat) : ∀ (buf : List Nat) (i : Nat),
    (setFrom buf i p).length = buf.length := by
  induction p with
  | nil => intro buf i; rfl
  | cons b bs ih =>
      intro buf i
      rw [setFrom, ih]
      exact List.length_set ..

/-- Reading back a contiguous run of writes: the first `i + |p|` cells of
`setFrom buf i p` are the untouched first `i` cells followed by `p`. -/
theorem setFrom_take (p : List Nat) : ∀ (buf : List Nat) (i : Nat),
    i + p.length ≤ buf.length →
    (setFrom buf i p).take (i + p.length) = buf.take i ++ p := by
  induction p with
  | nil => intro buf i h; simp [setFrom]
  | cons b bs ih =>
      intro buf i h
      have hlt : i < buf.length := by simp at h; omega
      have harith : i + (b :: bs).length = (i + 1) + bs.length := by simp; omega
      rw [setFrom, harith, ih (buf.set i b) (i + 1) (by simp at h ⊢; omega)]
      have hstep : (buf.set i b).take (i + 1) = buf.take i ++ [b] := by
        rw [List.set_eq_take_cons_drop b hlt, List.take_append_eq_append_take]
        have h1 : (buf.take i).length = i := by rw [List.length_take]; omega
        rw [List.take_take]
        have h2 : min (i + 1) i = i := by omega
        rw [h2, h1]
        simp
      rw [hstep]
      simp

/-! ### Decoder step lemmas -/

/-- `processBytes` distributes over list append. -/
theorem processBytes_append (s : RxState) (xs ys : List Nat) :
    processBytes s (xs ++ ys) =
      ((processBytes s xs).1 ++ (processBytes (processBytes s xs).2 ys).1,
       (processBytes (processBytes s xs).2 ys).2) := by
  induction xs generalizing s with
  | nil => simp [processBytes]
  | cons b bs ih =>
      simp only [List.cons_append, processBytes, List.append_eq]
      rw [ih]

/-- Feeding the frame header `[SYNC1, SYNC2, len]` to a decoder hunting for
sync leaves it in `READ_PAYLOAD` with the length latched. -/
theorem processBytes_header (s : RxState) (n : Nat) (hmode : s.rxMode = .WAIT_SYNC1)
    (h1 : 0 < n) (h2 : n ≤ 250) :
    processBytes s [SYNC1, SYNC2, n] =
      ([false, false, false],
       { s with rxLen := n, rxIndex := 0, rxMode := .READ_PAYLOAD }) := by
  simp [processBytes, processByte, processByteRun, hmode, SYNC1, SYNC2,
    MAX_PAYLOAD_SIZE, h1, h2]

/-- Feeding exactly `rxLen - rxIndex` payload bytes in `READ_PAYLOAD` writes
them into the buffer and moves to `READ_CRC_H`, reporting no frame. -/
theorem processBytes_payload (p : List Nat) : ∀ (s : RxState),
    s.rxMode = .READ_PAYLOAD → p ≠ [] → s.rxIndex + p.length = s.rxLen →
    processBytes s p =
      (List.replicate p.length false,
       { s with rxPayload := setFrom s.rxPayload s.rxIndex p,
                rxIndex := s.rxLen, rxMode := .READ_CRC_H }) := by
  induction p with
  | nil => intro s _ hne _; exact absurd rfl hne
  | cons b bs ih =>
      intro s hmode _ hlen
      cases bs with
      | nil =>
          have hfull : s.rxIndex + 1 ≥ s.rxLen := by simp at hlen; omega
          simp [processBytes, processByte, processByteRun, hmode, hfull, setFrom]
          simp at hlen
          simp [hlen]
      | cons b' bs' =>
          have hnotfull : ¬ (s.rxIndex + 1 ≥ s.rxLen) := by simp at hlen; omega
          rw [show (b :: b' :: bs' : List Nat) = [b] ++ (b' :: bs') from rfl,
            processBytes_append]
          have hstep : processBytes s [b] =
              ([false], { s with rxPayload := s.rxPayload.set s.rxIndex b,
                                 rxIndex := s.rxIndex + 1 }) := by
            simp [processBytes, processByte, processByteRun, hmode, hnotfull]
          rw [hstep]
          rw [ih { s with rxPayload := s.rxPayload.set s.rxIndex b,
                          rxIndex := s.rxIndex + 1 }
            hmode (by simp) (by simp at hlen ⊢; omega)]
          simp [setFrom, List.replicate_succ]

/-- Feeding the two CRC bytes of the matching CRC finishes the frame:
the decoder reports the frame on the low CRC byte and parks in
`FRAME_READY`. -/
theorem processBytes_crc (s : RxState) (crc : Nat) (hmode : s.rxMode = .READ_CRC_H)
    (hcrc : crc16_ccitt (s.rxLen :: s.rxPayload.take s.rxLen) = crc) (hlt : crc < 65536) :
    processBytes s [crc / 256 % 256, crc % 256] =
      ([false, true],
       { s with rxCrc := crc, framesReceived := s.framesReceived + 1,
                rxMode := .FRAME_READY }) := by
  have h1 : crc / 256 % 256 = crc / 256 := Nat.mod_eq_of_lt (by omega)
  have h2 : crc / 256 * 256 ||| crc % 256 = crc := by
    rw [lor_mul256 _ _ (by omega)]
    omega
  simp [processBytes, processByte, processByteRun, hmode, h1, h2, hcrc]

/-! ### Claim C1: frame round-trip -/

/-- C1.  Frame round-trip: for every payload of length `1..=250` (bytes),
`sendFrame` succeeds, and feeding the produced frame byte-by-byte into a
freshly-reset decoder makes `processByte` return `true` exactly once — on the
last byte — after which `getPayloadLength` (`rxLen`) equals the original
length and the first `rxLen` bytes of `getPayload` (`rxPayload`) are the
original payload. -/
theorem C1_frame_roundtrip (s₀ : RxState) (payload : List Nat)
    (hbuf : s₀.rxPayload.length = 250)
    (h1 : 1 ≤ payload.length) (h2 : payload.length ≤ MAX_PAYLOAD_SIZE)
    (hb : ∀ b ∈ payload, b < 256) :
    ∃ frame, sendFrame payload = some frame ∧
      (processBytes (resetRx s₀) frame).1 =
        List.replicate (payload.length + 4) false ++ [true] ∧
      (processBytes (resetRx s₀) frame).2.rxLen = payload.length ∧
      (processBytes (resetRx s₀) frame).2.rxPayload.take payload.length = payload ∧
      (processBytes (resetRx s₀) frame).2.rxMode = .FRAME_READY := by
  clear hb
  have h250 : payload.length ≤ 250 := h2
  have hp : 0 < payload.length := h1
  obtain ⟨mo, le, idx, buf, crcv, fr, ce, se⟩ := s₀
  simp only [RxState.rxPayload] at hbuf
  have hframe : sendFrame payload =
      some ([SYNC1, SYNC2, payload.length] ++ payload ++
        [crc16_ccitt (payload.length :: payload) / 256 % 256,
         crc16_ccitt (payload.length :: payload) % 256]) := by
    unfold sendFrame
    rw [if_neg]
    push_neg
    exact ⟨by omega, by omega⟩
  refine ⟨_, hframe, ?_⟩
  have htake : (setFrom buf 0 payload).take payload.length = payload := by
    have := setFrom_take payload buf 0 (by omega)
    simpa using this
  have step2 : processBytes
      (⟨.READ_PAYLOAD, payload.length, 0, buf, 0, fr, ce, se⟩ : RxState) payload =
      (List.replicate payload.length false,
       ⟨.READ_CRC_H, payload.length, payload.length, setFrom buf 0 payload,
        0, fr, ce, se⟩) := by
    have h := processBytes_payload payload
      (⟨.READ_PAYLOAD, payload.length, 0, buf, 0, fr, ce, se⟩ : RxState)
      rfl (by intro hc; subst hc; simp at h1) (by simp)
    simpa using h
  have step3 : processBytes
      (⟨.READ_CRC_H, payload.length, payload.length, setFrom buf 0 payload,
        0, fr, ce, se⟩ : RxState)
      [crc16_ccitt (payload.length :: payload) / 256 % 256,
       crc16_ccitt (payload.length :: payload) % 256] =
      ([false, true],
       ⟨.FRAME_READY, payload.length, payload.length, setFrom buf 0 payload,
        crc16_ccitt (payload.length :: payload), fr + 1, ce, se⟩) := by
    have h := processBytes_crc
      (⟨.READ_CRC_H, payload.length, payload.length, setFrom buf 0 payload,
        0, fr, ce, se⟩ : RxState)
      (crc16_ccitt (payload.length :: payload)) rfl
      (by
        show crc16_ccitt (payload.length ::
          (setFrom buf 0 payload).take payload.length) = _
        rw [htake])
      (crc16_ccitt_lt _)
    simpa using h
  have hall : processBytes
      (⟨.WAIT_SYNC1, 0, 0, buf, 0, fr, ce, se⟩ : RxState)
      ([SYNC1, SYNC2, payload.length] ++ payload ++
        [crc16_ccitt (payload.length :: payload) / 256 % 256,
         crc16_ccitt (payload.length :: payload) % 256]) =
      (false :: false :: false ::
        (List.replicate payload.length false ++ [false, true]),
       ⟨.FRAME_READY, payload.length, payload.length, setFrom buf 0 payload,
        crc16_ccitt (payload.length :: payload), fr + 1, ce, se⟩) := by
    simp only [List.cons_append, List.nil_append]
    simp only [processBytes, processByte, processByteRun, SYNC1, SYNC2,
      MAX_PAYLOAD_SIZE, hp, h250, and_self, if_true, ite_true, eq_self_iff_true,
      Nat.lt_irrefl]
    rw [processBytes_append, step2]
    simp only []
    rw [step3]
  have hreset : resetRx (⟨mo, le, idx, buf, crcv, fr, ce, se⟩ : RxState) =
      (⟨.WAIT_SYNC1, 0, 0, buf, 0, fr, ce, se⟩ : RxState) := rfl
  rw [hreset, hall]
  refine ⟨?_, rfl, ?_, rfl⟩
  · have hrep : List.replicate (payload.length + 4) false =
        false :: false :: false :: (List.replicate payload.length false ++ [false]) := by
      rw [show payload.length + 4 = 3 + (payload.length + 1) from by omega,
        List.replicate_add, List.replicate_add]
      simp
    rw [hrep]
    simp
  · exact htake

set_option maxRecDepth 8000 in
/-- C1 witness: round trip of the one-byte payload `[0x07]`. -/
theorem C1_frame_roundtrip_witness :
    ∃ frame, sendFrame [7] = some frame ∧
      (processBytes (resetRx initialRxState) frame).1 =
        List.replicate (([7] : List Nat).length + 4) false ++ [true] ∧
      (processBytes (resetRx initialRxState) frame).2.rxLen = ([7] : List Nat).length ∧
      (processBytes (resetRx initialRxState) frame).2.rxPayload.take
        ([7] : List Nat).length = [7] ∧
      (processBytes (resetRx initialRxState) frame).2.rxMode = .FRAME_READY :=
  C1_frame_roundtrip initialRxState [7] (by simp [initialRxState]) (by decide)
    (by decide) (by decide)

/-! ### Claim C8: behaviour of the FRAME_READY state -/

set_option maxRecDepth 8000 in
/-- C8 counterexample.  The claim says bytes pushed after a complete frame
are not processed until the caller resets the decoder.  In fact, after the
frame for payload `[1]` completes (decoder parked in `FRAME_READY`), pushing
the same frame again — with no intervening `resetRx` — decodes a second
complete frame (`framesReceived` reaches 2), and the very first pushed byte
is consumed as a sync byte (the mode advances to `WAIT_SYNC2`). -/
theorem C8_counterexample :
    (processBytes initialRxState ((sendFrame [1]).getD [])).2.rxMode =
      RxMode.FRAME_READY ∧
    (processByte (processBytes initialRxState ((sendFrame [1]).getD [])).2
      0xAA).2.rxMode = RxMode.WAIT_SYNC2 ∧
    (processBytes (processBytes initialRxState ((sendFrame [1]).getD [])).2
      ((sendFrame [1]).getD [])).2.framesReceived = 2 := by
  decide

/-- C8 amended.  In `FRAME_READY`, `processByte` does not ignore the pushed
byte: it resets the receive state machine itself and immediately processes
the byte as if starting from `WAIT_SYNC1` (no explicit caller reset is
required before further bytes are processed). -/
theorem C8_frameready_auto_reset (s : RxState) (byte : Nat)
    (h : s.rxMode = RxMode.FRAME_READY) :
    processByte s byte = processByte (resetRx s) byte := by
  unfold processByte
  rw [h]
  rfl

/-- C8 witness: the amended statement at a concrete `FRAME_READY` state. -/
theorem C8_frameready_auto_reset_witness :
    processByte (⟨.FRAME_READY, 1, 1, [7], 3, 1, 0, 0⟩ : RxState) 0xAA =
      processByte (resetRx (⟨.FRAME_READY, 1, 1, [7], 3, 1, 0, 0⟩ : RxState)) 0xAA :=
  C8_frameready_auto_reset _ 0xAA rfl

/-! ### Claim C10: decoder buffer safety -/

/-- The buffer-safety invariant of the decoder: in `READ_PAYLOAD` the write
index is strictly below the latched length, which is at most
`MAX_PAYLOAD_SIZE`; and the payload buffer always has exactly 250 cells. -/
def RxBufferInv (s : RxState) : Prop :=
  (s.rxMode = RxMode.READ_PAYLOAD → s.rxIndex < s.rxLen ∧ s.rxLen ≤ MAX_PAYLOAD_SIZE) ∧
  s.rxPayload.length = 250

/-- C10.  `processByte` never stores outside the 250-byte `rxPayload`
buffer: the invariant `rxIndex < rxLen ≤ MAX_PAYLOAD_SIZE` (in state
`READ_PAYLOAD`) holds initially, is preserved by every byte, and makes the
`rxPayload[rxIndex++] = byte` write in-bounds. -/
theorem C10_buffer_safety :
    RxBufferInv initialRxState ∧
    ∀ (s : RxState) (b : Nat), RxBufferInv s →
      RxBufferInv (processByte s b).2 ∧
      (s.rxMode = RxMode.READ_PAYLOAD → s.rxIndex < s.rxPayload.length) := by
  refine ⟨⟨fun h => RxMode.noConfusion h, List.length_replicate ..⟩, ?_⟩
  intro s b hs
  obtain ⟨hinv, hlenbuf⟩ := hs
  have hbound : s.rxMode = RxMode.READ_PAYLOAD → s.rxIndex < s.rxPayload.length := by
    intro h
    have h2 := hinv h
    unfold MAX_PAYLOAD_SIZE at h2
    omega
  refine ⟨?_, hbound⟩
  cases hmo : s.rxMode
  case WAIT_SYNC1 =>
    simp only [processByte, processByteRun, hmo]
    split_ifs <;> exact ⟨fun h => RxMode.noConfusion h, hlenbuf⟩
  case WAIT_SYNC2 =>
    simp only [processByte, processByteRun, hmo]
    split_ifs <;> exact ⟨fun h => RxMode.noConfusion h, hlenbuf⟩
  case READ_LEN =>
    simp only [processByte, processByteRun, hmo]
    split_ifs with hc
    · exact ⟨fun _ => ⟨hc.1, hc.2⟩, hlenbuf⟩
    · exact ⟨fun h => RxMode.noConfusion h, hlenbuf⟩
  case READ_PAYLOAD =>
    have hb2 := hinv hmo
    simp only [processByte, processByteRun, hmo]
    split_ifs with hc
    · exact ⟨fun h => RxMode.noConfusion h, by simpa using hlenbuf⟩
    · refine ⟨fun _ => ⟨?_, hb2.2⟩, by simpa using hlenbuf⟩
      show s.rxIndex + 1 < s.rxLen
      simp only [not_le] at hc
      exact hc
  case READ_CRC_H =>
    simp only [processByte, processByteRun, hmo]
    exact ⟨fun h => RxMode.noConfusion h, hlenbuf⟩
  case READ_CRC_L =>
    simp only [processByte, processByteRun, hmo]
    split_ifs <;> exact ⟨fun h => RxMode.noConfusion h, hlenbuf⟩
  case FRAME_READY =>
    simp only [processByte, processByteRun, hmo, resetRx]
    split_ifs <;> exact ⟨fun h => RxMode.noConfusion h, hlenbuf⟩

/-- C10 witness: the invariant at the initial state and one step. -/
theorem C10_buffer_safety_witness :
    RxBufferInv (processByte initialRxState 0).2 ∧
    (initialRxState.rxMode = RxMode.READ_PAYLOAD →
      initialRxState.rxIndex < initialRxState.rxPayload.length) :=
  C10_buffer_safety.2 initialRxState 0
    ⟨fun h => RxMode.noConfusion h, List.length_replicate ..⟩

/-! ### GameManager: inventory reconciliation (GameManager.h / GameManager.cpp) -/

/-- `PowerPlantType` enum values (GameManager.h). -/
def PHOTOVOLTAIC : Nat := 1

/-- `PowerPlantType` WIND. -/
def WIND : Nat := 2

/-- `PowerPlantType` NUCLEAR. -/
def NUCLEAR : Nat := 3

/-- `PowerPlantType` GAS. -/
def GAS : Nat := 4

/-- `PowerPlantType` HYDRO. -/
def HYDRO : Nat := 5

/-- `PowerPlantType` HYDRO_STORAGE. -/
def HYDRO_STORAGE : Nat := 6

/-- `PowerPlantType` COAL. -/
def COAL : Nat := 7

/-- `PowerPlantType` BATTERY. -/
def BATTERY : Nat := 8

/-- `GameManager::isValidSlaveType`: recognized UART slave types are
`PHOTOVOLTAIC..BATTERY`, i.e. `1..8`. -/
def isValidSlaveType (t : Nat) : Bool :=
  decide (PHOTOVOLTAIC ≤ t ∧ t ≤ BATTERY)

/-- `struct UartSlaveInfo` (GameManager.h): a reported device type with its
connected count. -/
structure UartSlaveInfo where
  slaveType : Nat
  amount : Nat
deriving DecidableEq, Repr

/-- `GameManager::PendingDecrease` (GameManager.h): a decrease (or
disconnect) staged behind the grace timer. -/
structure PendingDecrease where
  slaveType : Nat
  targetAmount : Nat
  firstSeen : Nat
  originalAmount : Nat
deriving DecidableEq, Repr

/-- The reconciler state: the authoritative inventory `uartPowerplants` and
the staged `pendingDecreases`. -/
structure InvState where
  uartPowerplants : List UartSlaveInfo
  pendingDecreases : List PendingDecrease
deriving DecidableEq, Repr

/-- `DECREASE_GRACE_MS = 500` (GameManager.h). -/
def DECREASE_GRACE_MS : Nat := 500

/-- Unsigned 32-bit wrap-around subtraction, the meaning of
`now - pd.firstSeen` on `unsigned long` (32-bit on the ESP32 target). -/
def u32sub (a b : Nat) : Nat :=
  (a % 4294967296 + (4294967296 - b % 4294967296)) % 4294967296

/-- The `findCurrentAmount` lambda in `updateUartPowerplants`: the amount of
the first inventory entry of the given type, or `-1` if absent. -/
def findCurrentAmount (inv : List UartSlaveInfo) (t : Nat) : Int :=
  match inv with
  | [] => -1
  | p :: rest => if p.slaveType = t then (p.amount : Int) else findCurrentAmount rest t

/-- The in-place update `for (auto &p : uartPowerplants) if (p.slaveType ==
type) { p.amount = amt; break; }`: set the amount of the first entry of the
given type. -/
def setAmount (inv : List UartSlaveInfo) (t amt : Nat) : List UartSlaveInfo :=
  match inv with
  | [] => []
  | p :: rest =>
      if p.slaveType = t then { p with amount := amt } :: rest
      else p :: setAmount rest t amt

/-- The pending-decrease staging loop of `updateUartPowerplants` (explicit
decrease): update the first pending entry of the given type (resetting the
timer if the target changed), or report `none` when no entry matches. -/
def updateFirstPending : List PendingDecrease → Nat → Nat → Nat →
    Option (List PendingDecrease)
  | [], _, _, _ => none
  | pd :: rest, t, amt, now =>
      if pd.slaveType = t then
        if pd.targetAmount ≠ amt then
          some ({ pd with targetAmount := amt, firstSeen := now } :: rest)
        else some (pd :: rest)
      else (updateFirstPending rest t amt now).map (pd :: ·)

/-- The staged-decrease update for one explicit lower report: update the
first pending entry of the type if one exists, else push a fresh
`PendingDecrease` (the `if (!foundPending) ... push_back` of the source). -/
def stageDecrease (pds : List PendingDecrease) (t amt now cur : Nat) :
    List PendingDecrease :=
  match updateFirstPending pds t amt now with
  | some pds' => pds'
  | none => pds ++ [⟨t, amt, now, cur⟩]

/-- Processing one reported `(type, amount)` record: the body of the
`for (const auto &incoming : powerplants)` loop in
`GameManager::updateUartPowerplants`. -/
def processIncoming (s : InvState) (now : Nat) (incoming : UartSlaveInfo) : InvState :=
  if ¬ isValidSlaveType incoming.slaveType then s
  else if findCurrentAmount s.uartPowerplants incoming.slaveType < 0 then
    { uartPowerplants := s.uartPowerplants ++ [incoming],
      pendingDecreases :=
        s.pendingDecreases.filter (fun pd => pd.slaveType ≠ incoming.slaveType) }
  else if (incoming.amount : Int) >
      findCurrentAmount s.uartPowerplants incoming.slaveType then
    { uartPowerplants := setAmount s.uartPowerplants incoming.slaveType incoming.amount,
      pendingDecreases :=
        s.pendingDecreases.filter (fun pd => pd.slaveType ≠ incoming.slaveType) }
  else if (incoming.amount : Int) <
      findCurrentAmount s.uartPowerplants incoming.slaveType then
    { s with pendingDecreases :=
        (stageDecrease s.pendingDecreases incoming.slaveType incoming.amount now
          (findCurrentAmount s.uartPowerplants incoming.slaveType).toNat) }
  else s

/-- The disappearance pass of `updateUartPowerplants`: every valid inventory
type absent from the report with positive amount is staged as a decrease to
0 — unless a pending entry with target 0 already exists for it. -/
def stageDisconnects (s : InvState) (report : List UartSlaveInfo) (now : Nat) :
    List PendingDecrease :=
  s.uartPowerplants.foldl
    (fun pds existing =>
      if ¬ isValidSlaveType existing.slaveType then pds
      else if report.any (fun inc => inc.slaveType = existing.slaveType) then pds
      else if existing.amount > 0 then
        if pds.any (fun pd => pd.slaveType = existing.slaveType ∧ pd.targetAmount = 0) then
          pds
        else pds ++ [⟨existing.slaveType, 0, now, existing.amount⟩]
      else pds)
    s.pendingDecreases

/-- The `remove_if` pass of `GameManager::applyPendingDecreases`: commit
every pending decrease whose grace timer expired into the inventory (first
matching entry), removing it from the pending list; elements are visited in
order. -/
def commitPending (inv : List UartSlaveInfo) (pds : List PendingDecrease) (now : Nat) :
    List UartSlaveInfo × List PendingDecrease :=
  match pds with
  | [] => (inv, [])
  | pd :: rest =>
      if u32sub now pd.firstSeen ≥ DECREASE_GRACE_MS then
        commitPending (setAmount inv pd.slaveType pd.targetAmount) rest now
      else
        let (inv', rest') := commitPending inv rest now
        (inv', pd :: rest')

/-- `GameManager::applyPendingDecreases`. -/
def applyPendingDecreases (s : InvState) (now : Nat) : InvState :=
  { uartPowerplants := (commitPending s.uartPowerplants s.pendingDecreases now).1,
    pendingDecreases := (commitPending s.uartPowerplants s.pendingDecreases now).2 }

/-- `GameManager::purgeInvalidUartPowerplants`. -/
def purgeInvalidUartPowerplants (inv : List UartSlaveInfo) : List UartSlaveInfo :=
  inv.filter (fun p => isValidSlaveType p.slaveType)

/-- `GameManager::updateUartPowerplants`: process each reported record,
stage disconnects for types absent from the report, then apply expired
pending decreases and purge invalid inventory entries. -/
def updateUartPowerplants (s : InvState) (report : List UartSlaveInfo) (now : Nat) :
    InvState :=
  let s1 := report.foldl (fun acc inc => processIncoming acc now inc) s
  let pds2 := stageDisconnects s1 report now
  let committed := commitPending s1.uartPowerplants pds2 now
  { uartPowerplants := purgeInvalidUartPowerplants committed.1,
    pendingDecreases := committed.2 }

/-! ### Scenario lemmas for the reconciler -/

/-- Wrap-around elapsed time from an instant to itself is 0. -/
theorem u32sub_self (a : Nat) : u32sub a a = 0 := by
  unfold u32sub
  omega

/-- A report with a strictly greater amount for the (unique) inventory type
is applied immediately and erases every pending entry of that type. -/
theorem processIncoming_increase (t c c' now : Nat) (pds : List PendingDecrease)
    (ht : isValidSlaveType t = true) (hinc : c < c') :
    processIncoming ⟨[⟨t, c⟩], pds⟩ now ⟨t, c'⟩ =
      ⟨[⟨t, c'⟩], pds.filter (fun pd => pd.slaveType ≠ t)⟩ := by
  have hcur : findCurrentAmount [⟨t, c⟩] t = (c : Int) := by simp [findCurrentAmount]
  unfold processIncoming
  dsimp only
  rw [hcur, if_neg (not_not_intro ht), if_neg (show ¬((c : Int) < 0) by omega),
    if_pos (show ((c' : Int) > (c : Int)) by omega)]
  simp [setAmount]

/-- A report with a strictly lower amount, with no pending entry staged,
creates the pending decrease and leaves the inventory alone. -/
theorem processIncoming_decrease_new (t c c'' now : Nat)
    (ht : isValidSlaveType t = true) (hdec : c'' < c) :
    processIncoming ⟨[⟨t, c⟩], []⟩ now ⟨t, c''⟩ =
      ⟨[⟨t, c⟩], [⟨t, c'', now, c⟩]⟩ := by
  have hcur : findCurrentAmount [⟨t, c⟩] t = (c : Int) := by simp [findCurrentAmount]
  unfold processIncoming
  dsimp only
  rw [hcur, if_neg (not_not_intro ht), if_neg (show ¬((c : Int) < 0) by omega),
    if_neg (show ¬((c'' : Int) > (c : Int)) by omega),
    if_pos (show ((c'' : Int) < (c : Int)) by omega)]
  simp [stageDecrease, updateFirstPending]

/-- A report repeating the already-staged lower target keeps the pending
entry (and its timer) untouched. -/
theorem processIncoming_decrease_same (t c c'' tp now : Nat)
    (ht : isValidSlaveType t = true) (hdec : c'' < c) :
    processIncoming ⟨[⟨t, c⟩], [⟨t, c'', tp, c⟩]⟩ now ⟨t, c''⟩ =
      ⟨[⟨t, c⟩], [⟨t, c'', tp, c⟩]⟩ := by
  have hcur : findCurrentAmount [⟨t, c⟩] t = (c : Int) := by simp [findCurrentAmount]
  unfold processIncoming
  dsimp only
  rw [hcur, if_neg (not_not_intro ht), if_neg (show ¬((c : Int) < 0) by omega),
    if_neg (show ¬((c'' : Int) > (c : Int)) by omega),
    if_pos (show ((c'' : Int) < (c : Int)) by omega)]
  simp [stageDecrease, updateFirstPending]

/-- A report equal to the current amount changes nothing — in particular a
pending decrease for the type is left running. -/
theorem processIncoming_equal (t c now : Nat) (pds : List PendingDecrease)
    (ht : isValidSlaveType t = true) :
    processIncoming ⟨[⟨t, c⟩], pds⟩ now ⟨t, c⟩ = ⟨[⟨t, c⟩], pds⟩ := by
  have hcur : findCurrentAmount [⟨t, c⟩] t = (c : Int) := by simp [findCurrentAmount]
  unfold processIncoming
  dsimp only
  rw [hcur, if_neg (not_not_intro ht), if_neg (show ¬((c : Int) < 0) by omega),
    if_neg (show ¬((c : Int) > (c : Int)) by omega),
    if_neg (show ¬((c : Int) < (c : Int)) by omega)]

/-- The disappearance pass does nothing when the single inventory type is
present in the report. -/
theorem stageDisconnects_seen (t a b now : Nat) (pds : List PendingDecrease) :
    stageDisconnects ⟨[⟨t, a⟩], pds⟩ [⟨t, b⟩] now = pds := by
  simp [stageDisconnects]

/-- A single pending entry whose grace has not yet elapsed is kept, leaving
the inventory untouched. -/
theorem commitPending_single_keep (inv : List UartSlaveInfo) (t c'' tp co now : Nat)
    (hwait : u32sub now tp < DECREASE_GRACE_MS) :
    commitPending inv [⟨t, c'', tp, co⟩] now = (inv, [⟨t, c'', tp, co⟩]) := by
  simp [commitPending, Nat.not_le.mpr hwait]

/-- A single pending entry whose grace elapsed is committed into the
(unique-type) inventory and removed. -/
theorem commitPending_single_commit (t a c'' tp co now : Nat)
    (hgrace : u32sub now tp ≥ DECREASE_GRACE_MS) :
    commitPending [⟨t, a⟩] [⟨t, c'', tp, co⟩] now = ([⟨t, c''⟩], []) := by
  simp [commitPending, hgrace, setAmount]

/-- Purging keeps a valid-typed singleton inventory. -/
theorem purge_single (t a : Nat) (ht : isValidSlaveType t = true) :
    purgeInvalidUartPowerplants [⟨t, a⟩] = [⟨t, a⟩] := by
  simp [purgeInvalidUartPowerplants, ht]

/-! ### Claim C2: increase immediate, decrease delayed -/

/-- C2.  For a device type `t` in the authoritative inventory: a report with
a strictly greater count is applied immediately and cancels any pending
decrease for `t`; a report with a strictly lower count stages a pending
decrease and leaves the count unchanged, both when staged and on later
passes (re-reports of the same lower count included) while less than
`DECREASE_GRACE_MS` has elapsed since the lower count was first observed;
once the grace period has elapsed, the lower count is committed and the
pending entry removed. -/
theorem C2_increase_immediate_decrease_delayed
    (t c c' c'' cp tp now₀ now₁ now₂ now₃ : Nat)
    (ht : isValidSlaveType t = true)
    (hinc : c < c') (hdec : c'' < c')
    (hwait : u32sub now₂ now₁ < DECREASE_GRACE_MS)
    (hgrace : u32sub now₃ now₁ ≥ DECREASE_GRACE_MS) :
    updateUartPowerplants ⟨[⟨t, c⟩], [⟨t, cp, tp, c⟩]⟩ [⟨t, c'⟩] now₀ =
      ⟨[⟨t, c'⟩], []⟩ ∧
    updateUartPowerplants ⟨[⟨t, c'⟩], []⟩ [⟨t, c''⟩] now₁ =
      ⟨[⟨t, c'⟩], [⟨t, c'', now₁, c'⟩]⟩ ∧
    updateUartPowerplants ⟨[⟨t, c'⟩], [⟨t, c'', now₁, c'⟩]⟩ [⟨t, c''⟩] now₂ =
      ⟨[⟨t, c'⟩], [⟨t, c'', now₁, c'⟩]⟩ ∧
    applyPendingDecreases ⟨[⟨t, c'⟩], [⟨t, c'', now₁, c'⟩]⟩ now₂ =
      ⟨[⟨t, c'⟩], [⟨t, c'', now₁, c'⟩]⟩ ∧
    applyPendingDecreases ⟨[⟨t, c'⟩], [⟨t, c'', now₁, c'⟩]⟩ now₃ =
      ⟨[⟨t, c''⟩], []⟩ := by
  refine ⟨?_, ?_, ?_, ?_, ?_⟩
  · unfold updateUartPowerplants
    simp only [List.foldl_cons, List.foldl_nil,
      processIncoming_increase t c c' now₀ _ ht hinc]
    have hfil : ([⟨t, cp, tp, c⟩] : List PendingDecrease).filter
        (fun pd => pd.slaveType ≠ t) = [] := by simp
    rw [hfil, stageDisconnects_seen]
    simp only [commitPending]
    rw [purge_single t c' ht]
  · unfold updateUartPowerplants
    simp only [List.foldl_cons, List.foldl_nil,
      processIncoming_decrease_new t c' c'' now₁ ht hdec]
    rw [stageDisconnects_seen,
      commitPending_single_keep _ t c'' now₁ c' now₁ (by rw [u32sub_self]; simp [DECREASE_GRACE_MS]),
      purge_single t c' ht]
  · unfold updateUartPowerplants
    simp only [List.foldl_cons, List.foldl_nil,
      processIncoming_decrease_same t c' c'' now₁ now₂ ht hdec]
    rw [stageDisconnects_seen,
      commitPending_single_keep _ t c'' now₁ c' now₂ hwait,
      purge_single t c' ht]
  · unfold applyPendingDecreases
    rw [commitPending_single_keep _ t c'' now₁ c' now₂ hwait]
  · unfold applyPendingDecreases
    rw [commitPending_single_commit t c' c'' now₁ c' now₃ hgrace]

/-- C2 witness: the concrete `{A: 3} → {A: 5} → {A: 2}` scenario of the
specification, with the grace boundary at 500 ms. -/
theorem C2_increase_immediate_decrease_delayed_witness :
    updateUartPowerplants ⟨[⟨7, 3⟩], [⟨7, 1, 50, 3⟩]⟩ [⟨7, 5⟩] 100 =
      ⟨[⟨7, 5⟩], []⟩ ∧
    updateUartPowerplants ⟨[⟨7, 5⟩], []⟩ [⟨7, 2⟩] 200 =
      ⟨[⟨7, 5⟩], [⟨7, 2, 200, 5⟩]⟩ ∧
    updateUartPowerplants ⟨[⟨7, 5⟩], [⟨7, 2, 200, 5⟩]⟩ [⟨7, 2⟩] 600 =
      ⟨[⟨7, 5⟩], [⟨7, 2, 200, 5⟩]⟩ ∧
    applyPendingDecreases ⟨[⟨7, 5⟩], [⟨7, 2, 200, 5⟩]⟩ 600 =
      ⟨[⟨7, 5⟩], [⟨7, 2, 200, 5⟩]⟩ ∧
    applyPendingDecreases ⟨[⟨7, 5⟩], [⟨7, 2, 200, 5⟩]⟩ 700 =
      ⟨[⟨7, 2⟩], []⟩ :=
  C2_increase_immediate_decrease_delayed 7 3 5 2 1 50 100 200 600 700
    (by decide) (by decide) (by decide) (by decide) (by decide)

/-! ### Claim C3: decrease retraction -/

/-- C3 counterexample.  With inventory `{1: 5}` and a pending decrease
`5 → 2` staged at time 0, a report of `{1: 5}` at time 100 (before the
grace period elapses) does **not** cancel the pending decrease — the entry
survives the call — and a later commit pass (time 600) changes the
authoritative count to 2, contradicting the claim that the count remains 5
from then on. -/
theorem C3_counterexample :
    (updateUartPowerplants ⟨[⟨1, 5⟩], [⟨1, 2, 0, 5⟩]⟩ [⟨1, 5⟩] 100).pendingDecreases =
      [⟨1, 2, 0, 5⟩] ∧
    applyPendingDecreases
      (updateUartPowerplants ⟨[⟨1, 5⟩], [⟨1, 2, 0, 5⟩]⟩ [⟨1, 5⟩] 100) 600 =
      ⟨[⟨1, 2⟩], []⟩ := by
  decide

/-- C3 amended.  A report showing the type at the current authoritative
count leaves the pending decrease running unchanged (a pending decrease is
cancelled only by a strictly greater report or a fresh type insertion);
once the grace period from the original observation elapses, a commit pass
applies the staged target, so the count becomes the staged lower value, not
the reported one. -/
theorem C3_equal_report_keeps_pending (t c c'' tp now now' : Nat)
    (ht : isValidSlaveType t = true) (hdec : c'' < c)
    (hwait : u32sub now tp < DECREASE_GRACE_MS)
    (hgrace : u32sub now' tp ≥ DECREASE_GRACE_MS) :
    updateUartPowerplants ⟨[⟨t, c⟩], [⟨t, c'', tp, c⟩]⟩ [⟨t, c⟩] now =
      ⟨[⟨t, c⟩], [⟨t, c'', tp, c⟩]⟩ ∧
    applyPendingDecreases ⟨[⟨t, c⟩], [⟨t, c'', tp, c⟩]⟩ now' =
      ⟨[⟨t, c''⟩], []⟩ := by
  constructor
  · unfold updateUartPowerplants
    simp only [List.foldl_cons, List.foldl_nil,
      processIncoming_equal t c now _ ht]
    rw [stageDisconnects_seen,
      commitPending_single_keep _ t c'' tp c now hwait,
      purge_single t c ht]
  · unfold applyPendingDecreases
    rw [commitPending_single_commit t c c'' tp c now' hgrace]

/-- C3 witness: the amended behaviour at the counterexample's numbers. -/
theorem C3_equal_report_keeps_pending_witness :
    updateUartPowerplants ⟨[⟨1, 5⟩], [⟨1, 2, 0, 5⟩]⟩ [⟨1, 5⟩] 100 =
      ⟨[⟨1, 5⟩], [⟨1, 2, 0, 5⟩]⟩ ∧
    applyPendingDecreases ⟨[⟨1, 5⟩], [⟨1, 2, 0, 5⟩]⟩ 600 =
      ⟨[⟨1, 2⟩], []⟩ :=
  C3_equal_report_keeps_pending 1 5 2 0 100 600
    (by decide) (by decide) (by decide) (by decide)

/-! ### Claim C4: pending-change multiplicity -/

/-- The pending entries staged for one device type, in list order. -/
def pendingsFor (pds : List PendingDecrease) (t : Nat) : List PendingDecrease :=
  pds.filter (fun pd => pd.slaveType = t)

/-- Unfolding `pendingsFor` over a cons cell. -/
theorem pendingsFor_cons (pd : PendingDecrease) (l : List PendingDecrease) (t : Nat) :
    pendingsFor (pd :: l) t =
      if pd.slaveType = t then pd :: pendingsFor l t else pendingsFor l t := by
  by_cases h : pd.slaveType = t <;> simp [pendingsFor, List.filter_cons, h]

/-- `pendingsFor` distributes over append. -/
theorem pendingsFor_append (l₁ l₂ : List PendingDecrease) (t : Nat) :
    pendingsFor (l₁ ++ l₂) t = pendingsFor l₁ t ++ pendingsFor l₂ t := by
  simp [pendingsFor, List.filter_append]

/-- The shape invariant maintained by the reconciler's pending set: a device
type never carries more than two staged entries, and when it carries two the
later one is the zero-target (disconnect) entry. -/
def PendingWF (pds : List PendingDecrease) : Prop :=
  ∀ t pd₁ pd₂ rest, pendingsFor pds t = pd₁ :: pd₂ :: rest →
    rest = [] ∧ pd₂.targetAmount = 0

/-- Erasing all entries of one type interacts with `pendingsFor` as
expected. -/
theorem pendingsFor_filter_ne (pds : List PendingDecrease) (u t : Nat) :
    pendingsFor (pds.filter (fun pd => pd.slaveType ≠ u)) t =
      if t = u then [] else pendingsFor pds t := by
  induction pds with
  | nil => simp [pendingsFor]
  | cons pd rest ih =>
      rw [List.filter_cons]
      by_cases h1 : pd.slaveType = u
      · rw [if_neg (by simp [h1]), ih]
        by_cases h2 : t = u
        · simp [h2]
        · simp [h2, pendingsFor_cons,
            show ¬ pd.slaveType = t from fun he => h2 (he ▸ h1)]
      · rw [if_pos (by simp [h1]), pendingsFor_cons, pendingsFor_cons]
        by_cases h2 : pd.slaveType = t
        · rw [if_pos h2, if_pos h2, ih]
          simp [show ¬ t = u from fun he => h1 (h2.trans he)]
        · rw [if_neg h2, if_neg h2, ih]

/-- The type-erase filter preserves the shape invariant. -/
theorem PendingWF_filter_ne (pds : List PendingDecrease) (u : Nat)
    (h : PendingWF pds) :
    PendingWF (pds.filter (fun pd => pd.slaveType ≠ u)) := by
  intro t pd₁ pd₂ rest heq
  rw [pendingsFor_filter_ne] at heq
  by_cases h2 : t = u
  · rw [if_pos h2] at heq
    exact absurd heq (by simp)
  · rw [if_neg h2] at heq
    exact h t pd₁ pd₂ rest heq

/-- `updateFirstPending` returns `none` exactly when no entry of the type is
staged. -/
theorem updateFirstPending_none_iff (pds : List PendingDecrease) (t amt now : Nat) :
    updateFirstPending pds t amt now = none ↔ ∀ pd ∈ pds, pd.slaveType ≠ t := by
  induction pds with
  | nil => simp [updateFirstPending]
  | cons pd rest ih =>
      unfold updateFirstPending
      by_cases h : pd.slaveType = t
      · simp [h]
        split <;> simp
      · simp [h, ih]

/-- When `updateFirstPending` fires, it rewrites the head of the type's
pending run in place (same type, possibly new target and timer) and leaves
every other type's run untouched. -/
theorem updateFirstPending_some_spec (pds : List PendingDecrease) (t amt now : Nat)
    (pds' : List PendingDecrease)
    (h : updateFirstPending pds t amt now = some pds') :
    (∀ u, u ≠ t → pendingsFor pds' u = pendingsFor pds u) ∧
    ∃ pd₀ tail, pendingsFor pds t = pd₀ :: tail ∧
      pendingsFor pds' t =
        (if pd₀.targetAmount ≠ amt then
          { pd₀ with targetAmount := amt, firstSeen := now } else pd₀) :: tail := by
  induction pds generalizing pds' with
  | nil => simp [updateFirstPending] at h
  | cons pd rest ih =>
      unfold updateFirstPending at h
      by_cases hty : pd.slaveType = t
      · rw [if_pos hty] at h
        by_cases htgt : pd.targetAmount ≠ amt
        · rw [if_pos htgt] at h
          obtain rfl : ({ pd with targetAmount := amt, firstSeen := now } :: rest) = pds' :=
            Option.some.inj h
          constructor
          · intro u hu
            rw [pendingsFor_cons, pendingsFor_cons,
              if_neg (show ¬ pd.slaveType = u from fun he => hu (he.symm.trans hty)),
              if_neg (show ¬ pd.slaveType = u from fun he => hu (he.symm.trans hty))]
          · refine ⟨pd, pendingsFor rest t, ?_, ?_⟩
            · rw [pendingsFor_cons, if_pos hty]
            · rw [pendingsFor_cons, if_pos hty, if_pos htgt]
        · rw [if_neg htgt] at h
          obtain rfl : (pd :: rest) = pds' := Option.some.inj h
          constructor
          · intro u hu
            rfl
          · refine ⟨pd, pendingsFor rest t, ?_, ?_⟩
            · rw [pendingsFor_cons, if_pos hty]
            · rw [pendingsFor_cons, if_pos hty, if_neg htgt]
      · rw [if_neg hty] at h
        cases hrec : updateFirstPending rest t amt now with
        | none => rw [hrec] at h; simp at h
        | some rest' =>
            rw [hrec] at h
            obtain rfl : (pd :: rest') = pds' := by
              simpa using h
            obtain ⟨hother, pd₀, tail, hshape, hshape'⟩ := ih rest' hrec
            constructor
            · intro u hu
              rw [pendingsFor_cons, pendingsFor_cons]
              by_cases hc : pd.slaveType = u
              · rw [if_pos hc, if_pos hc, hother u hu]
              · rw [if_neg hc, if_neg hc, hother u hu]
            · refine ⟨pd₀, tail, ?_, ?_⟩
              · rw [pendingsFor_cons, if_neg hty, hshape]
              · rw [pendingsFor_cons, if_neg hty, hshape']

/-- Staging an explicit decrease preserves the pending-shape invariant. -/
theorem PendingWF_stageDecrease (pds : List PendingDecrease) (t amt now cur : Nat)
    (h : PendingWF pds) : PendingWF (stageDecrease pds t amt now cur) := by
  unfold stageDecrease
  cases hup : updateFirstPending pds t amt now with
  | none =>
      intro u pd₁ pd₂ rest heq
      rw [pendingsFor_append] at heq
      by_cases hc : u = t
      · subst hc
        have hempty : pendingsFor pds u = [] := by
          rw [updateFirstPending_none_iff] at hup
          simp only [pendingsFor, List.filter_eq_nil_iff]
          intro pd hpd
          simpa using hup pd hpd
        rw [hempty, List.nil_append] at heq
        rw [show pendingsFor [(⟨u, amt, now, cur⟩ : PendingDecrease)] u =
            [⟨u, amt, now, cur⟩] from by simp [pendingsFor]] at heq
        exact absurd heq (by simp)
      · have hone : pendingsFor [(⟨t, amt, now, cur⟩ : PendingDecrease)] u = [] := by
          simp only [pendingsFor, List.filter_eq_nil_iff]
          intro pd hpd
          simp only [List.mem_singleton] at hpd
          subst hpd
          simpa using fun he => hc he.symm
        rw [hone, List.append_nil] at heq
        exact h u pd₁ pd₂ rest heq
  | some pds' =>
      intro u pd₁ pd₂ rest heq
      obtain ⟨hother, pd₀, tail, hshape, hshape'⟩ :=
        updateFirstPending_some_spec pds t amt now pds' hup
      by_cases hc : u = t
      · subst hc
        rw [hshape'] at heq
        injection heq with he1 he2
        exact h u pd₀ pd₂ rest (by rw [hshape, he2])
      · rw [hother u hc] at heq
        exact h u pd₁ pd₂ rest heq

/-- `processIncoming` preserves the pending-shape invariant. -/
theorem PendingWF_processIncoming (s : InvState) (now : Nat) (inc : UartSlaveInfo)
    (h : PendingWF s.pendingDecreases) :
    PendingWF (processIncoming s now inc).pendingDecreases := by
  unfold processIncoming
  split_ifs <;>
    first
      | exact h
      | exact PendingWF_filter_ne _ _ h
      | exact PendingWF_stageDecrease _ _ _ _ _ h

/-- The report-processing fold preserves the pending-shape invariant. -/
theorem PendingWF_foldl (report : List UartSlaveInfo) (now : Nat) :
    ∀ (s : InvState), PendingWF s.pendingDecreases →
      PendingWF ((report.foldl (fun acc inc => processIncoming acc now inc) s).pendingDecreases) := by
  induction report with
  | nil => intro s h; exact h
  | cons inc rest ih =>
      intro s h
      rw [List.foldl_cons]
      exact ih _ (PendingWF_processIncoming s now inc h)

/-- Appending a fresh zero-target entry for a type with no zero-target
entry yet preserves the pending shape. -/
theorem PendingWF_disconnect_append (pds : List PendingDecrease) (ty amt now : Nat)
    (h : PendingWF pds)
    (hnozero : ¬ (pds.any fun pd =>
      decide (pd.slaveType = ty ∧ pd.targetAmount = 0)) = true) :
    PendingWF (pds ++ [⟨ty, 0, now, amt⟩]) := by
  intro u pd₁ pd₂ rest' heq
  rw [pendingsFor_append] at heq
  by_cases hc : u = ty
  · subst hc
    have hsingle : pendingsFor [(⟨u, 0, now, amt⟩ : PendingDecrease)] u =
        [⟨u, 0, now, amt⟩] := by
      simp [pendingsFor]
    rw [hsingle] at heq
    cases hshape : pendingsFor pds u with
    | nil =>
        rw [hshape, List.nil_append] at heq
        exact absurd heq (by simp)
    | cons a tl =>
        cases tl with
        | nil =>
            rw [hshape] at heq
            simp only [List.cons_append, List.nil_append] at heq
            injection heq with e1 e2
            injection e2 with e3 e4
            exact ⟨e4.symm, by rw [← e3]⟩
        | cons b tl2 =>
            obtain ⟨htl2, htgt⟩ := h u a b tl2 hshape
            exfalso
            apply hnozero
            have hbmemf : b ∈ pendingsFor pds u := by rw [hshape]; simp
            have hbmem : b ∈ pds := List.mem_of_mem_filter hbmemf
            have hbty : b.slaveType = u := by
              simpa using List.of_mem_filter hbmemf
            exact List.any_eq_true.mpr ⟨b, hbmem, by simp [hbty, htgt]⟩
  · have hnone : pendingsFor [(⟨ty, 0, now, amt⟩ : PendingDecrease)] u = [] := by
      simp only [pendingsFor, List.filter_eq_nil_iff]
      intro pd hpd
      simp only [List.mem_singleton] at hpd
      subst hpd
      simpa using fun he => hc he.symm
    rw [hnone, List.append_nil] at heq
    exact h u pd₁ pd₂ rest' heq

/-- The disappearance pass preserves the pending-shape invariant: it only
ever appends a zero-target entry for a type that has no zero-target entry
yet, which by the invariant means the type had at most one (nonzero-target)
entry. -/
theorem PendingWF_stageDisconnects (s : InvState) (report : List UartSlaveInfo)
    (now : Nat) (h : PendingWF s.pendingDecreases) :
    PendingWF (stageDisconnects s report now) := by
  unfold stageDisconnects
  generalize s.pendingDecreases = pds0 at h
  induction s.uartPowerplants generalizing pds0 with
  | nil => exact h
  | cons existing rest ih =>
      rw [List.foldl_cons]
      apply ih
      split_ifs <;>
        first
          | exact h
          | exact PendingWF_disconnect_append pds0 existing.slaveType
              existing.amount now h (by assumption)

/-- `commitPending` removes pending entries in place: its pending result is
a sublist of the input. -/
theorem commitPending_sublist (pds : List PendingDecrease) :
    ∀ (inv : List UartSlaveInfo) (now : Nat),
      (commitPending inv pds now).2.Sublist pds := by
  induction pds with
  | nil => intro inv now; simp [commitPending]
  | cons pd rest ih =>
      intro inv now
      unfold commitPending
      split_ifs
      · exact (ih _ now).trans (List.sublist_cons_self pd rest)
      · exact List.Sublist.cons₂ pd (ih inv now)

/-- Committing expired entries preserves the pending-shape invariant. -/
theorem PendingWF_commitPending (inv : List UartSlaveInfo)
    (pds : List PendingDecrease) (now : Nat) (h : PendingWF pds) :
    PendingWF (commitPending inv pds now).2 := by
  intro t pd₁ pd₂ rest heq
  have hsub : (pendingsFor (commitPending inv pds now).2 t).Sublist (pendingsFor pds t) :=
    List.Sublist.filter _ (commitPending_sublist pds inv now)
  rw [heq] at hsub
  cases hshape : pendingsFor pds t with
  | nil =>
      rw [hshape] at hsub
      exact absurd (List.sublist_nil.mp hsub) (by simp)
  | cons a tl =>
      cases tl with
      | nil =>
          rw [hshape] at hsub
          have := hsub.length_le
          simp at this
      | cons b tl2 =>
          obtain ⟨htl2, htgt⟩ := h t a b tl2 hshape
          subst htl2
          rw [hshape] at hsub
          have hlen2 := hsub.length_le
          simp only [List.length_cons, List.length_nil] at hlen2
          have hlen : rest = [] := by
            rw [← List.length_eq_zero]
            omega
          subst hlen
          have heq2 : ([pd₁, pd₂] : List PendingDecrease) = [a, b] :=
            hsub.eq_of_length (by simp)
          simp at heq2
          exact ⟨rfl, by rw [heq2.2, htgt]⟩

/-- C4 counterexample.  With inventory `{1: 5}` and a staged nonzero-target
decrease `5 → 2`, a report from which type 1 is absent adds a second
pending entry (target 0) for the same type: the pending collection then
holds two entries for deviceType 1, refuting at-most-one-per-type. -/
theorem C4_counterexample :
    (pendingsFor
      (updateUartPowerplants ⟨[⟨1, 5⟩], [⟨1, 2, 0, 5⟩]⟩ [] 100).pendingDecreases
      1).length = 2 := by
  decide

/-- C4 amended.  The reconciler does not keep at most one pending entry per
device type: a type with a staged nonzero-target decrease that is absent
from the next report acquires a second, zero-target entry.  What
`updateUartPowerplants` does preserve is the weaker shape invariant
`PendingWF`: at most two pending entries per deviceType, and when there are
two the later one is the zero-target (disconnect) entry. -/
theorem C4_pending_shape_invariant (s : InvState) (report : List UartSlaveInfo)
    (now : Nat) (h : PendingWF s.pendingDecreases) :
    PendingWF (updateUartPowerplants s report now).pendingDecreases := by
  unfold updateUartPowerplants
  exact PendingWF_commitPending _ _ now
    (PendingWF_stageDisconnects _ report now (PendingWF_foldl report now s h))

/-- C4 witness: the invariant holds after the counterexample's call, starting
from a state that satisfies it. -/
theorem C4_pending_shape_invariant_witness :
    PendingWF (updateUartPowerplants ⟨[⟨1, 5⟩], [⟨1, 2, 0, 5⟩]⟩ [] 100).pendingDecreases :=
  C4_pending_shape_invariant ⟨[⟨1, 5⟩], [⟨1, 2, 0, 5⟩]⟩ [] 100
    (by
      intro t pd₁ pd₂ rest heq
      by_cases hc : 1 = t <;>
        simp [pendingsFor_cons, pendingsFor, hc] at heq)

/-! ### GameManager: control law (GameManager.cpp), floats modelled as ℚ -/

/-- A local power-plant control channel (`struct PowerPlant`, GameManager.h);
only the fields the control law reads are modelled.  `plantType` is the
`PowerPlantType` enum value; watt quantities and the encoder percentage are
exact rationals in place of `float`. -/
structure PowerPlant where
  plantType : Nat
  minWatts : ℚ
  maxWatts : ℚ
  powerPercentage : ℚ
deriving DecidableEq, Repr

/-- Wire command `CMD_ON = 0x01` (GameManager.cpp). -/
def CMD_ON : Nat := 0x01

/-- Wire command `CMD_OFF = 0x02`. -/
def CMD_OFF : Nat := 0x02

/-- Wire command `CMD_BATTERY_IDLE = 0x03`. -/
def CMD_BATTERY_IDLE : Nat := 0x03

/-- Wire command `CMD_BATTERY_CHARGE = 0x04`. -/
def CMD_BATTERY_CHARGE : Nat := 0x04

/-- Wire command `CMD_BATTERY_DISCHARGE = 0x05`. -/
def CMD_BATTERY_DISCHARGE : Nat := 0x05

/-- `WIND_COEFFICIENT_THRESHOLD = 0.5f` (power_plant_config.h). -/
def WIND_COEFFICIENT_THRESHOLD : ℚ := 0.5

/-- `HYDRO_COEFFICIENT_THRESHOLD = 0.5f` (power_plant_config.h). -/
def HYDRO_COEFFICIENT_THRESHOLD : ℚ := 0.5

/-- `SOLAR_ACTIVE_THRESHOLD = 0.5f` (GameManager.cpp). -/
def SOLAR_ACTIVE_THRESHOLD : ℚ := 0.5

/-- `GameManager::computePowerPerPlant`.  The two nested `if`s of the
symmetric-envelope deadband are written as one conjunction (`if (symmetric)
{ if (near center) return 0; }` falls through to the absolute snap
otherwise), and the locals `pct`, `range`, `value`, `symmetryTol`, `absTol`
are inlined. -/
def computePowerPerPlant (gameActive : Bool) (plant : PowerPlant) : ℚ :=
  if ¬ gameActive then 0
  else if plant.maxWatts ≤ 0 then 0
  else if |plant.maxWatts + plant.minWatts| ≤
        (0.001 : ℚ) * (|plant.maxWatts| + |plant.minWatts| + 1) ∧
      |plant.powerPercentage - 0.5| ≤ (0.0025 : ℚ) then 0
  else if |plant.minWatts + plant.powerPercentage * (plant.maxWatts - plant.minWatts)| ≤
      (0.002 : ℚ) * (|plant.maxWatts| + |plant.minWatts|) then 0
  else plant.minWatts + plant.powerPercentage * (plant.maxWatts - plant.minWatts)

/-- The sequential clamping of the gas level
(`level = floor(pct*10); if (level == 0) level = 1; if (level > 10) level = 10`). -/
def gasLevel (pct : ℚ) : Int :=
  if ⌊pct * 10⌋ = 0 then 1
  else if ⌊pct * 10⌋ > 10 then 10
  else ⌊pct * 10⌋

/-- `GameManager::updateGas`, reduced to the transmitted command code:
`CMD_OFF` for a disabled plant or below 5%, else `0x05 + level`. -/
def updateGasCmd (plant : PowerPlant) : Nat :=
  if plant.maxWatts ≤ 0 then CMD_OFF
  else if plant.powerPercentage < (0.05 : ℚ) then CMD_OFF
  else (0x05 + gasLevel plant.powerPercentage).toNat

/-- `onOffByPercent` (GameManager.cpp): 0 for a disabled plant, else 1 iff
the encoder percentage exceeds 50%. -/
def onOffByPercent (plant : PowerPlant) : Nat :=
  if plant.maxWatts ≤ 0 then 0
  else if plant.powerPercentage > (0.5 : ℚ) then 1 else 0

/-- The wind state computed by `GameManager::updateWind`: 1 (spinning) iff
the ESP API is up and the server wind coefficient exceeds
`WIND_COEFFICIENT_THRESHOLD`, else 0. -/
def updateWindState (espApiPresent : Bool) (windCoefficient : ℚ) : Nat :=
  if espApiPresent then
    if windCoefficient > WIND_COEFFICIENT_THRESHOLD then 1 else 0
  else 0

/-- The hydro state computed by `GameManager::updateHydro`: plain
`onOffByPercent` of the local encoder percentage. -/
def updateHydroState (plant : PowerPlant) : Nat :=
  onOffByPercent plant

/-! ### Claim C5: the computePower law -/

/-- C5.  `computePowerPerPlant` returns 0 when the game is inactive or
`maxPower ≤ 0`; otherwise it returns
`value = minPower + percentage * (maxPower - minPower)`, except that (a) for
an approximately symmetric envelope with the percentage within 0.0025 of
the center, and (b) whenever `|value| ≤ 0.002 * (|maxPower| + |minPower|)`,
it returns exactly 0. -/
theorem C5_computePower_law (gameActive : Bool) (plant : PowerPlant) :
    computePowerPerPlant gameActive plant =
      if ¬ gameActive ∨ plant.maxWatts ≤ 0 then 0
      else if (|plant.maxWatts + plant.minWatts| ≤
            (0.001 : ℚ) * (|plant.maxWatts| + |plant.minWatts| + 1) ∧
            |plant.powerPercentage - 0.5| ≤ (0.0025 : ℚ)) ∨
          |plant.minWatts + plant.powerPercentage * (plant.maxWatts - plant.minWatts)| ≤
            (0.002 : ℚ) * (|plant.maxWatts| + |plant.minWatts|) then 0
      else plant.minWatts + plant.powerPercentage * (plant.maxWatts - plant.minWatts) := by
  unfold computePowerPerPlant
  split_ifs <;> tauto

/-! ### Claim C6: gas quantization -/

/-- C6.  For a gas channel with `maxPower > 0`: a percentage below 0.05
transmits `CMD_OFF`; every percentage ≥ 0.05 transmits the banded code for
`level = max(1, ⌊percentage * 10⌋)` clamped to 10, with level 1..10 mapped
to the contiguous codes `0x06..0x0F` and no input producing a code outside
that range; in particular 0.049 → OFF, 0.05 → level 1 (0x06) and
1.0 → level 10 (0x0F). -/
theorem C6_gas_quantization :
    (∀ plant : PowerPlant, 0 < plant.maxWatts →
      (plant.powerPercentage < (0.05 : ℚ) → updateGasCmd plant = CMD_OFF) ∧
      ((0.05 : ℚ) ≤ plant.powerPercentage →
        updateGasCmd plant =
          (0x05 + min 10 (max 1 ⌊plant.powerPercentage * 10⌋)).toNat ∧
        0x06 ≤ updateGasCmd plant ∧ updateGasCmd plant ≤ 0x0F)) ∧
    updateGasCmd ⟨GAS, 0, 100, 0.049⟩ = CMD_OFF ∧
    updateGasCmd ⟨GAS, 0, 100, 0.05⟩ = 0x06 ∧
    updateGasCmd ⟨GAS, 0, 100, 1⟩ = 0x0F := by
  refine ⟨?_, by norm_num [updateGasCmd, gasLevel, CMD_OFF],
    by norm_num [updateGasCmd, gasLevel, CMD_OFF]; omega,
    by norm_num [updateGasCmd, gasLevel, CMD_OFF]; omega⟩
  intro plant hmax
  constructor
  · intro hlt
    unfold updateGasCmd
    rw [if_neg (not_le.mpr hmax), if_pos hlt]
  · intro hge
    have hfl0 : 0 ≤ ⌊plant.powerPercentage * 10⌋ := by
      apply Int.floor_nonneg.mpr
      nlinarith
    unfold updateGasCmd gasLevel
    rw [if_neg (not_le.mpr hmax), if_neg (not_lt.mpr hge)]
    by_cases h0 : ⌊plant.powerPercentage * 10⌋ = 0
    · rw [if_pos h0, h0]
      refine ⟨by norm_num, by norm_num, by norm_num⟩
    · rw [if_neg h0]
      by_cases h10 : ⌊plant.powerPercentage * 10⌋ > 10
      · rw [if_pos h10]
        refine ⟨by omega, by omega, by omega⟩
      · rw [if_neg h10]
        refine ⟨by omega, by omega, by omega⟩

/-- C6 witness: the general banded branch applied at percentage 0.57. -/
theorem C6_gas_quantization_witness :
    updateGasCmd ⟨GAS, 0, 100, 0.57⟩ =
      (0x05 + min 10 (max 1 ⌊(0.57 : ℚ) * 10⌋)).toNat ∧
    0x06 ≤ updateGasCmd ⟨GAS, 0, 100, 0.57⟩ ∧
    updateGasCmd ⟨GAS, 0, 100, 0.57⟩ ≤ 0x0F :=
  (C6_gas_quantization.1 ⟨GAS, 0, 100, 0.57⟩ (by norm_num)).2 (by norm_num)

/-! ### Claim C7: coefficient-gated kinds -/

/-- C7 counterexample.  The hydro updater ignores the remotely supplied
coefficient: with a hydro channel at 20% the transmitted state is OFF even
though the (would-be) coefficient 0.9 exceeds the 0.5 threshold, and moving
only the local encoder to 80% flips the state to ON — the local analog
percentage, not the coefficient, decides hydro. -/
theorem C7_counterexample :
    updateHydroState ⟨HYDRO, 0, 100, 0.2⟩ = 0 ∧
    updateHydroState ⟨HYDRO, 0, 100, 0.8⟩ = 1 ∧
    (0.9 : ℚ) > HYDRO_COEFFICIENT_THRESHOLD := by
  refine ⟨by norm_num [updateHydroState, onOffByPercent],
    by norm_num [updateHydroState, onOffByPercent],
    by norm_num [HYDRO_COEFFICIENT_THRESHOLD]⟩

/-- C7 amended.  Wind is coefficient-gated: its state is ON (1) iff the ESP
API is up and the server wind coefficient exceeds the 0.5 threshold, the
local percentage playing no role.  Hydro is not: its state is ON iff
`maxPower > 0` and the local encoder percentage exceeds 0.5, the
coefficient playing no role.  Both states are two-valued (mapped to
CMD_ON/CMD_OFF on the wire). -/
theorem C7_wind_gated_hydro_local (api : Bool) (coeff : ℚ) (plant : PowerPlant) :
    (updateWindState api coeff = 1 ↔
      api = true ∧ coeff > WIND_COEFFICIENT_THRESHOLD) ∧
    (updateWindState api coeff = 0 ∨ updateWindState api coeff = 1) ∧
    (updateHydroState plant = 1 ↔
      0 < plant.maxWatts ∧ plant.powerPercentage > (0.5 : ℚ)) ∧
    (updateHydroState plant = 0 ∨ updateHydroState plant = 1) := by
  refine ⟨?_, ?_, ?_, ?_⟩
  · unfold updateWindState
    split_ifs <;> simp_all
  · unfold updateWindState
    split_ifs <;> simp
  · unfold updateHydroState onOffByPercent
    split_ifs <;> simp_all [not_le, not_lt] <;> linarith
  · unfold updateHydroState onOffByPercent
    split_ifs <;> simp

/-! ### GameManager: periodic attraction update (GameManager.cpp) -/

/-- Hydro storage command `CMD_HYDRO_STORAGE_LEVEL_1 = 0x0B` (full / heavy
discharging). -/
def CMD_HYDRO_STORAGE_LEVEL_1 : Nat := 0x0B

/-- Hydro storage command `CMD_HYDRO_STORAGE_LEVEL_2 = 0x0C`. -/
def CMD_HYDRO_STORAGE_LEVEL_2 : Nat := 0x0C

/-- Hydro storage command `CMD_HYDRO_STORAGE_LEVEL_3 = 0x0D` (idle). -/
def CMD_HYDRO_STORAGE_LEVEL_3 : Nat := 0x0D

/-- Hydro storage command `CMD_HYDRO_STORAGE_LEVEL_4 = 0x0E`. -/
def CMD_HYDRO_STORAGE_LEVEL_4 : Nat := 0x0E

/-- Hydro storage command `CMD_HYDRO_STORAGE_LEVEL_5 = 0x0F` (empty / heavy
charging). -/
def CMD_HYDRO_STORAGE_LEVEL_5 : Nat := 0x0F

/-- The remote-state environment the attraction update reads: the
game-active flag, whether the ESP API object exists, and the per-type
production coefficients held by it. -/
structure Env where
  gameActive : Bool
  espApiPresent : Bool
  coeff : Nat → ℚ

/-- `GameManager::getProductionCoefficientForType`: 0 without an ESP API
connection, else the stored coefficient (0 when absent is folded into
`coeff`). -/
def getProductionCoefficientForType (e : Env) (t : Nat) : ℚ :=
  if e.espApiPresent then e.coeff t else 0

/-- `GameManager::updatePhotovoltaic`, reduced to the transmitted command:
default `CMD_BATTERY_IDLE` (green), switched to `CMD_ON` (orange) when the
ESP API is up and the solar coefficient is at most
`SOLAR_ACTIVE_THRESHOLD`. -/
def updatePhotovoltaicCmd (e : Env) : Nat :=
  if e.espApiPresent ∧
      getProductionCoefficientForType e PHOTOVOLTAIC ≤ SOLAR_ACTIVE_THRESHOLD then
    CMD_ON
  else CMD_BATTERY_IDLE

/-- The normalized power of `GameManager::updateHydroStorage`:
`power / (range * 0.5)` when the range is positive, else 0. -/
def hydroStorageNormalizedPower (gameActive : Bool) (plant : PowerPlant) : ℚ :=
  if plant.maxWatts - plant.minWatts > 0 then
    computePowerPerPlant gameActive plant / ((plant.maxWatts - plant.minWatts) * (0.5 : ℚ))
  else 0

/-- `GameManager::updateHydroStorage`, reduced to the transmitted command. -/
def updateHydroStorageCmd (gameActive : Bool) (plant : PowerPlant) : Nat :=
  if plant.maxWatts ≤ 0 then CMD_OFF
  else if hydroStorageNormalizedPower gameActive plant ≤ (-0.6 : ℚ) then
    CMD_HYDRO_STORAGE_LEVEL_5
  else if hydroStorageNormalizedPower gameActive plant ≤ (-0.2 : ℚ) then
    CMD_HYDRO_STORAGE_LEVEL_4
  else if hydroStorageNormalizedPower gameActive plant ≥ (0.6 : ℚ) then
    CMD_HYDRO_STORAGE_LEVEL_1
  else if hydroStorageNormalizedPower gameActive plant ≥ (0.2 : ℚ) then
    CMD_HYDRO_STORAGE_LEVEL_2
  else CMD_HYDRO_STORAGE_LEVEL_3

/-- `GameManager::updateBattery`, reduced to the transmitted command:
idle at exactly zero power, charge below, discharge above. -/
def updateBatteryCmd (gameActive : Bool) (plant : PowerPlant) : Nat :=
  if computePowerPerPlant gameActive plant = 0 then CMD_BATTERY_IDLE
  else if computePowerPerPlant gameActive plant < 0 then CMD_BATTERY_CHARGE
  else CMD_BATTERY_DISCHARGE

/-- `sendAttractionCommand` (uart_link.cpp): a nonzero state maps to
`CMD_ON`, zero to `CMD_OFF`. -/
def sendAttractionCmd4 (state : Nat) : Nat :=
  if state ≠ 0 then CMD_ON else CMD_OFF

/-- The command transmitted for one inventory entry by
`GameManager::updateAttractionStates`: the first locally registered channel
of the type picks the kind-specific rule (the `switch` over `plantType`);
with no registered channel the device is commanded OFF. -/
def attractionCommandFor (e : Env) (plants : List PowerPlant) (u : UartSlaveInfo) : Nat :=
  match plants.find? (fun p => p.plantType = u.slaveType) with
  | none => sendAttractionCmd4 0
  | some plant =>
      if plant.plantType = PHOTOVOLTAIC then updatePhotovoltaicCmd e
      else if plant.plantType = WIND then
        sendAttractionCmd4
          (updateWindState e.espApiPresent (getProductionCoefficientForType e WIND))
      else if plant.plantType = NUCLEAR then sendAttractionCmd4 (onOffByPercent plant)
      else if plant.plantType = GAS then updateGasCmd plant
      else if plant.plantType = HYDRO then sendAttractionCmd4 (updateHydroState plant)
      else if plant.plantType = HYDRO_STORAGE then updateHydroStorageCmd e.gameActive plant
      else if plant.plantType = COAL then sendAttractionCmd4 (onOffByPercent plant)
      else if plant.plantType = BATTERY then updateBatteryCmd e.gameActive plant
      else sendAttractionCmd4
        (if plant.maxWatts > 0 ∧ plant.powerPercentage > (0.5 : ℚ) then 1 else 0)

/-- The per-type commands emitted by one eligible run of
`GameManager::updateAttractionStates`: every inventory entry with a nonzero
amount and a valid type gets exactly one command addressed to its type
(entries with amount 0 or an invalid type are skipped). -/
def updateAttractionCommands (e : Env) (plants : List PowerPlant)
    (inv : List UartSlaveInfo) : List (Nat × Nat) :=
  (inv.filter (fun u => u.amount ≠ 0 ∧ isValidSlaveType u.slaveType)).map
    (fun u => (u.slaveType, attractionCommandFor e plants u))

/-! ### Claim C9: sibling command exclusion -/

/-- C9 counterexample.  With both a battery channel and a hydro-storage
channel registered (same envelope `0..100` W, encoder at 20%) and both
types in inventory with count 1, the attraction update emits an independent
command for the hydro-storage type (level 2, code `0x0C`) alongside the
battery's command — there is no sibling exclusion in the command path. -/
theorem C9_counterexample :
    updateAttractionCommands ⟨true, true, fun _ => 1⟩
      [⟨BATTERY, 0, 100, 0.2⟩, ⟨HYDRO_STORAGE, 0, 100, 0.2⟩]
      [⟨BATTERY, 1⟩, ⟨HYDRO_STORAGE, 1⟩] =
      [(BATTERY, CMD_BATTERY_DISCHARGE),
       (HYDRO_STORAGE, CMD_HYDRO_STORAGE_LEVEL_2)] ∧
    (HYDRO_STORAGE, CMD_HYDRO_STORAGE_LEVEL_2) ∈
      updateAttractionCommands ⟨true, true, fun _ => 1⟩
        [⟨BATTERY, 0, 100, 0.2⟩, ⟨HYDRO_STORAGE, 0, 100, 0.2⟩]
        [⟨BATTERY, 1⟩, ⟨HYDRO_STORAGE, 1⟩] := by
  have hpow : computePowerPerPlant true (⟨8, 0, 100, 1 / 5⟩ : PowerPlant) = 20 := by
    unfold computePowerPerPlant
    norm_num
  have hpow6 : computePowerPerPlant true (⟨6, 0, 100, 1 / 5⟩ : PowerPlant) = 20 := by
    unfold computePowerPerPlant
    norm_num
  have hnorm : hydroStorageNormalizedPower true
      (⟨6, 0, 100, 1 / 5⟩ : PowerPlant) = (2 / 5 : ℚ) := by
    unfold hydroStorageNormalizedPower
    rw [show ((⟨6, 0, 100, 1 / 5⟩ : PowerPlant).maxWatts -
        (⟨6, 0, 100, 1 / 5⟩ : PowerPlant).minWatts) = 100 from by norm_num]
    norm_num [hpow6]
  have h8 : attractionCommandFor ⟨true, true, fun _ => 1⟩
      [⟨BATTERY, 0, 100, 0.2⟩, ⟨HYDRO_STORAGE, 0, 100, 0.2⟩] ⟨BATTERY, 1⟩ =
      CMD_BATTERY_DISCHARGE := by
    unfold attractionCommandFor
    rw [show ([(⟨BATTERY, 0, 100, 0.2⟩ : PowerPlant), ⟨HYDRO_STORAGE, 0, 100, 0.2⟩].find?
        (fun p => p.plantType = (⟨BATTERY, 1⟩ : UartSlaveInfo).slaveType)) =
        some ⟨BATTERY, 0, 100, 0.2⟩ from rfl]
    norm_num [PHOTOVOLTAIC, WIND, NUCLEAR, GAS, HYDRO, HYDRO_STORAGE, COAL, BATTERY,
      updateBatteryCmd]
    rw [hpow]
    norm_num [CMD_BATTERY_DISCHARGE, CMD_BATTERY_IDLE, CMD_BATTERY_CHARGE]
  have h6 : attractionCommandFor ⟨true, true, fun _ => 1⟩
      [⟨BATTERY, 0, 100, 0.2⟩, ⟨HYDRO_STORAGE, 0, 100, 0.2⟩] ⟨HYDRO_STORAGE, 1⟩ =
      CMD_HYDRO_STORAGE_LEVEL_2 := by
    unfold attractionCommandFor
    rw [show ([(⟨BATTERY, 0, 100, 0.2⟩ : PowerPlant), ⟨HYDRO_STORAGE, 0, 100, 0.2⟩].find?
        (fun p => p.plantType = (⟨HYDRO_STORAGE, 1⟩ : UartSlaveInfo).slaveType)) =
        some ⟨HYDRO_STORAGE, 0, 100, 0.2⟩ from rfl]
    norm_num [PHOTOVOLTAIC, WIND, NUCLEAR, GAS, HYDRO, HYDRO_STORAGE, COAL, BATTERY,
      updateHydroStorageCmd]
    rw [hnorm]
    norm_num [CMD_HYDRO_STORAGE_LEVEL_1, CMD_HYDRO_STORAGE_LEVEL_2,
      CMD_HYDRO_STORAGE_LEVEL_3, CMD_HYDRO_STORAGE_LEVEL_4, CMD_HYDRO_STORAGE_LEVEL_5]
  have hlist : updateAttractionCommands ⟨true, true, fun _ => 1⟩
      [⟨BATTERY, 0, 100, 0.2⟩, ⟨HYDRO_STORAGE, 0, 100, 0.2⟩]
      [⟨BATTERY, 1⟩, ⟨HYDRO_STORAGE, 1⟩] =
      [(BATTERY, CMD_BATTERY_DISCHARGE),
       (HYDRO_STORAGE, CMD_HYDRO_STORAGE_LEVEL_2)] := by
    unfold updateAttractionCommands
    rw [show ([(⟨BATTERY, 1⟩ : UartSlaveInfo), ⟨HYDRO_STORAGE, 1⟩].filter
        (fun u => u.amount ≠ 0 ∧ isValidSlaveType u.slaveType)) =
        [⟨BATTERY, 1⟩, ⟨HYDRO_STORAGE, 1⟩] from rfl]
    rw [List.map_cons, List.map_cons, List.map_nil, h8, h6]
  exact ⟨hlist, by rw [hlist]; simp⟩

/-- C9 amended.  The periodic attraction update does issue an independent
command for the hydro-storage type: every inventory entry of type
`HYDRO_STORAGE` with a nonzero count — battery registered or not —
contributes its own `(type, command)` pair to the emitted commands (the
battery/hydro-storage sharing special case lives in the display update
path, not in command issuance). -/
theorem C9_hydro_storage_commanded (e : Env) (plants : List PowerPlant)
    (inv : List UartSlaveInfo) (u : UartSlaveInfo)
    (hmem : u ∈ inv) (hty : u.slaveType = HYDRO_STORAGE) (hamt : u.amount ≠ 0) :
    (HYDRO_STORAGE, attractionCommandFor e plants u) ∈
      updateAttractionCommands e plants inv := by
  unfold updateAttractionCommands
  apply List.mem_map.mpr
  refine ⟨u, ?_, by rw [hty]⟩
  apply List.mem_filter.mpr
  refine ⟨hmem, ?_⟩
  simp [hamt, hty, isValidSlaveType, HYDRO_STORAGE, PHOTOVOLTAIC, BATTERY]

/-- C9 witness: the amended statement at the counterexample's state. -/
theorem C9_hydro_storage_commanded_witness :
    (HYDRO_STORAGE, attractionCommandFor ⟨true, true, fun _ => 1⟩
      [⟨BATTERY, 0, 100, 0.2⟩, ⟨HYDRO_STORAGE, 0, 100, 0.2⟩] ⟨HYDRO_STORAGE, 1⟩) ∈
    updateAttractionCommands ⟨true, true, fun _ => 1⟩
      [⟨BATTERY, 0, 100, 0.2⟩, ⟨HYDRO_STORAGE, 0, 100, 0.2⟩]
      [⟨BATTERY, 1⟩, ⟨HYDRO_STORAGE, 1⟩] :=
  C9_hydro_storage_commanded ⟨true, true, fun _ => 1⟩
    [⟨BATTERY, 0, 100, 0.2⟩, ⟨HYDRO_STORAGE, 0, 100, 0.2⟩]
    [⟨BATTERY, 1⟩, ⟨HYDRO_STORAGE, 1⟩] ⟨HYDRO_STORAGE, 1⟩
    (by simp) rfl (by decide)
